import Mathlib

/-!
Shallow embedding of the skyline kernel scheduler
(`app/src/main/cpp/skyline/kernel/scheduler.cpp`, `types/KThread.h`) and of
the legacy `KProcess` guest synchronization primitives (mutex / conditional
variable wait lists) found in the repository.

Machine integers are modelled as `Nat`; u64 subtraction (which wraps in the
C++ source) is modelled explicitly with `u64sub`.  Queues (`std::list` /
`std::deque`) are modelled as `List`s; `std::upper_bound` over a
priority-partitioned queue is modelled by `upperBound`, the index of the
first element whose priority is numerically greater than the probe
(identical to `std::upper_bound` whenever the range is partitioned, which
holds at every call site used by the theorems below).
-/

namespace SkylineKernel

/-- 2^64, the modulus of the C++ `u64` arithmetic used by the scheduler. -/
def U64MOD : Nat := 18446744073709551616

/-- Wrapping `u64` subtraction `a - b` (the C++ operands are `u64`). -/
def u64sub (a b : Nat) : Nat := (a + U64MOD - b % U64MOD) % U64MOD

/-- The scheduler-relevant state of `kernel::type::KThread`
(`types/KThread.h`): identity, priority, core assignment, affinity mask,
timeslice accounting and the yield/preemption bookkeeping flags. -/
structure KThread where
  id : Nat
  priority : Nat
  coreId : Nat
  affinityMask : Nat
  timesliceStart : Nat
  averageTimeslice : Nat
  isPreempted : Bool
  pendingYield : Bool
  forceYield : Bool
deriving DecidableEq, Repr

/-- `KThread::IsHigherPriority` (`types/KThread.h` line 89): a probe
priority is higher than a queued thread iff it is numerically lower. -/
def IsHigherPriority (priority : Nat) (it : KThread) : Bool :=
  priority < it.priority

/-- Index returned by
`std::upper_bound(queue.begin(), queue.end(), priority, IsHigherPriority)`:
the first position whose element has a numerically greater priority. -/
def upperBound (p : Nat) : List KThread → Nat
  | [] => 0
  | t :: ts => if IsHigherPriority p t then 0 else upperBound p ts + 1

/-- `std::list::insert` at a given position (positions past the end clamp,
which no call site below reaches). -/
def insertAt : Nat → KThread → List KThread → List KThread
  | _, t, [] => [t]
  | 0, t, l => t :: l
  | n + 1, t, a :: xs => a :: insertAt n t xs

/-- `std::list::erase` at a given position. -/
def eraseAt : Nat → List KThread → List KThread
  | _, [] => []
  | 0, _ :: xs => xs
  | n + 1, a :: xs => a :: eraseAt n xs

/-- Index of a thread in a queue, by identity
(`std::find` over `shared_ptr` equality). -/
def findIdxById (tid : Nat) : List KThread → Option Nat
  | [] => none
  | t :: ts => if t.id = tid then some 0 else (findIdxById tid ts).map (· + 1)

/-- Erase the first queue entry with the given identity. -/
def eraseById (tid : Nat) : List KThread → List KThread
  | [] => []
  | t :: ts => if t.id = tid then ts else t :: eraseById tid ts

/-- The ready-queue ordering invariant of the spec: priorities are
non-decreasing from front to back (lower numeric value = higher priority). -/
def sortedByPriority : List KThread → Bool
  | [] => true
  | [_] => true
  | a :: b :: l => decide (a.priority ≤ b.priority) && sortedByPriority (b :: l)

/-- The splice performed by `Scheduler::InsertThread` (scheduler.cpp line 96)
and `Scheduler::Rotate` (line 183): the front element is moved to the
position `std::upper_bound` finds for its own priority (computed while the
element is still at the front, hence the `- 1` after its removal). -/
def spliceFrontToBand : List KThread → List KThread
  | [] => []
  | front :: rest =>
      insertAt (upperBound front.priority (front :: rest) - 1) front rest

/-- The flag updates `Scheduler::InsertThread` applies to a displaced front
(scheduler.cpp lines 95-106): `forceYield` is always set; `pendingYield` is
set when the caller is not the front itself and a yield signal was not
already pending (the OS signal itself is an external effect). -/
def yieldFlags (front : KThread) (callerIsFront : Bool) : KThread :=
  let front1 := { front with forceYield := true }
  if !callerIsFront && !front1.pendingYield then { front1 with pendingYield := true }
  else front1

/-- `Scheduler::InsertThread` (scheduler.cpp lines 85-120), queue/flag part.
`callerIsFront` models `state.thread == front` (line 99).  Notifying
`frontCondition` is an external effect. -/
def insertThread (queue : List KThread) (thread : KThread) (callerIsFront : Bool) :
    List KThread :=
  match queue, upperBound thread.priority queue with
  | [], _ => [thread]
  | front :: rest, 0 =>
      thread :: spliceFrontToBand (yieldFlags front callerIsFront :: rest)
  | front :: rest, n + 1 => insertAt (n + 1) thread (front :: rest)

/-- The field updates `Scheduler::Rotate` applies to the calling thread after
the splice (scheduler.cpp lines 191-201): the weighted average-timeslice
update (note the C++ precedence: `now - timesliceStart / 4`) and the
unconditional clearing of `isPreempted`, `pendingYield` and `forceYield`. -/
def clearedFlags (t : KThread) (now : Nat) : KThread :=
  { t with
    averageTimeslice := t.averageTimeslice / 4 + 3 * u64sub now (t.timesliceStart / 4),
    isPreempted := false, pendingYield := false, forceYield := false }

/-- `Scheduler::Rotate` (scheduler.cpp lines 174-202).  Returns the new
queue and the updated calling thread, or `none` on the abnormal paths
(empty queue / the fatal `exception` thrown when the caller is neither at
the front nor force-yielded).  Disarming the preemption timer on a
cooperative yield is an external effect; its guard flag `isPreempted` is
cleared in `clearedFlags`.  The `cooperative` argument affects no modelled
state. -/
def rotate (cooperative : Bool) (queue : List KThread) (thread : KThread) (now : Nat) :
    Option (List KThread × KThread) :=
  match queue with
  | [] => none
  | front :: rest =>
      if front.id = thread.id then
        some ((spliceFrontToBand (front :: rest)).map
                (fun x => if x.id = thread.id then clearedFlags x now else x),
              clearedFlags thread now)
      else if thread.forceYield then
        some ((front :: rest).map
                (fun x => if x.id = thread.id then clearedFlags x now else x),
              clearedFlags thread now)
      else none

/-- `Scheduler::RemoveThread` (scheduler.cpp lines 296-322): erase the
calling thread from its core's queue; if it was at the front, update its
average timeslice (when `timesliceStart` is set); finally clear
`isPreempted` (the timer disarm is an external effect). -/
def removeThread (queue : List KThread) (thread : KThread) (now : Nat) :
    List KThread × KThread :=
  match findIdxById thread.id queue with
  | none =>
      (queue, if thread.isPreempted then { thread with isPreempted := false } else thread)
  | some i =>
      let t1 :=
        if i = 0 ∧ thread.timesliceStart ≠ 0 then
          { thread with
            averageTimeslice :=
              thread.averageTimeslice / 4 + 3 * u64sub now (thread.timesliceStart / 4) }
        else thread
      (eraseAt i queue,
       if t1.isPreempted then { t1 with isPreempted := false } else t1)

/-- Result of `Scheduler::UpdatePriority`: the new queue plus which external
effects were performed.  `signaledSelf` and `armedTimer` correspond to
scheduler.cpp lines 217-219 and 221-226, which are unreachable because line
210 already returns when `currentIt == core->queue.begin()`. -/
structure UpdateResult where
  queue : List KThread
  signaledFront : Bool
  signaledSelf : Bool
  armedTimer : Bool
  disarmedTimer : Bool
deriving DecidableEq, Repr

/-- The re-insertion step of `Scheduler::UpdatePriority` after the erase
(scheduler.cpp lines 243-253): insert at the recomputed `upper_bound`
position, except that a thread whose position would be the new front is
inserted directly behind the current front instead, and that front is
signalled to yield (the returned boolean: a signal was actually sent, i.e.
the front's `pendingYield` was not already set). -/
def reinsertAfterErase (t1 : KThread) (q1 : List KThread) : List KThread × Bool :=
  match q1, upperBound t1.priority q1 with
  | front :: rest, 0 =>
      ((if front.pendingYield then front else { front with pendingYield := true })
         :: t1 :: rest,
       !front.pendingYield)
  | q1', target2 => (insertAt target2 t1 q1', false)

/-- `Scheduler::UpdatePriority` (scheduler.cpp lines 204-254).  The queue
already holds the thread (same object) with its new priority at its stale
position.  Control flow follows the source: early return when the thread is
absent or at the front (line 210, which makes the lines 213-228 block
unreachable); stale-position no-op check (line 231); erase; conditional
preemption-timer disarm; re-insertion per `reinsertAfterErase`. -/
def updatePriority (preemptionPriority : Nat) (queue : List KThread) (tid : Nat) :
    UpdateResult :=
  match findIdxById tid queue with
  | none => ⟨queue, false, false, false, false⟩
  | some i =>
      if i = 0 then ⟨queue, false, false, false, false⟩
      else
        match queue.get? i with
        | none => ⟨queue, false, false, false, false⟩
        | some t =>
            if i = upperBound t.priority queue then ⟨queue, false, false, false, false⟩
            else
              let q1 := eraseAt i queue
              let disarm := t.isPreempted && decide (t.priority ≠ preemptionPriority)
              let t1 := if disarm then { t with isPreempted := false } else t
              let r := reinsertAfterErase t1 q1
              ⟨r.1, r.2, false, false, disarm⟩

/-! ## Load balancing and parked threads -/

/-- A per-core ready queue (`Scheduler::CoreContext`); its `id` is also its
index in the scheduler's `cores` array. -/
structure Core where
  id : Nat
  queue : List KThread
deriving DecidableEq, Repr

/-- Structural helper for `bitCount`: `fuel` bounds the recursion depth and
any `fuel ≥ n` computes the exact population count of `n`. -/
def bitCountFuel : Nat → Nat → Nat
  | 0, _ => 0
  | _ + 1, 0 => 0
  | fuel + 1, n => n % 2 + bitCountFuel fuel (n / 2)

/-- `std::bitset::count` on the affinity mask, i.e. the population count of
the mask viewed as a natural number (`n` itself is a sufficient recursion
bound since `n / 2` at least halves each step). -/
def bitCount (n : Nat) : Nat := bitCountFuel n n

/-- Sum of `averageTimeslice ? averageTimeslice : 1` over the resident
threads behind the running one whose priority is numerically
less-or-equal to the probing thread's (scheduler.cpp lines 46-50). -/
def restTimeslice (prio : Nat) : List KThread → Nat
  | [] => 0
  | r :: rs =>
      (if r.priority ≤ prio then (if r.averageTimeslice ≠ 0 then r.averageTimeslice else 1) else 0)
        + restTimeslice prio rs

/-- The wall-time estimate `Scheduler::LoadBalance` computes for one
candidate core (scheduler.cpp lines 36-52), including the wrapping `u64`
arithmetic and the (source-faithful) `std::min(…, 1)` clamp on the running
thread's remaining timeslice. -/
def coreTimeslice (now prio : Nat) (core : Core) : Nat :=
  match core.queue with
  | [] => 0
  | running :: rest =>
      (if running.averageTimeslice ≠ 0 then
        min (u64sub running.averageTimeslice (u64sub now running.timesliceStart)) 1
      else if running.timesliceStart ≠ 0 then u64sub now running.timesliceStart
      else 1) + restTimeslice prio rest

/-- One iteration of the candidate-selection loop of
`Scheduler::LoadBalance` (scheduler.cpp lines 34-59): cores outside the
affinity mask are skipped; a candidate replaces the incumbent when there is
no incumbent yet, on a strictly smaller estimate, or on a tie when the
candidate is the current core (pointer equality, expressed through the core
id since ids index the `cores` array). -/
def selectStep (currentId mask prio now : Nat) (best : Option (Core × Nat))
    (candidate : Core) : Option (Core × Nat) :=
  if mask.testBit candidate.id then
    let ts := coreTimeslice now prio candidate
    match best with
    | none => some (candidate, ts)
    | some (b, bts) =>
        if ts < bts ∨ (ts = bts ∧ candidate.id = currentId) then some (candidate, ts)
        else some (b, bts)
  else best

/-- The whole candidate-selection loop: fold `selectStep` over the cores in
order, starting with no incumbent (`optimalCore = nullptr`). -/
def selectCore (cores : List Core) (currentId mask prio now : Nat) :
    Option (Core × Nat) :=
  cores.foldl (selectStep currentId mask prio now) none

/-- Outcome of `Scheduler::LoadBalance` for the thread: its core id after
the call, whether it migrated, and whether the call threw the
"migrating an external thread" exception (before any migration). -/
structure LoadBalanceResult where
  coreId : Nat
  migrated : Bool
  threw : Bool
deriving DecidableEq, Repr

/-- `Scheduler::LoadBalance` (scheduler.cpp lines 25-83), restricted to the
thread-state outcome.  `isSelf` models `thread == state.thread`.  `none`
models the undefined/aborting paths (`cores.at` out of range, or the null
`optimalCore` dereference when no core is in the affinity mask). -/
def loadBalance (cores : List Core) (t : KThread) (isSelf alwaysInsert : Bool)
    (now : Nat) : Option LoadBalanceResult :=
  match cores.get? t.coreId with
  | none => none
  | some currentCore =>
      if currentCore.queue ≠ [] ∧ bitCount t.affinityMask ≠ 1 then
        match selectCore cores currentCore.id t.affinityMask t.priority now with
        | none => none
        | some (optimal, _) =>
            if optimal.id ≠ currentCore.id then
              if !alwaysInsert && !isSelf then some ⟨t.coreId, false, true⟩
              else some ⟨optimal.id, true, false⟩
            else some ⟨t.coreId, false, false⟩
      else some ⟨t.coreId, false, false⟩

/-- `Scheduler::WakeParkedThread` (scheduler.cpp lines 276-294).  Returns
`some wokenId` on a normal run (`wokenId = none` when no parked thread is
woken), and `none` for the undefined behaviour of dereferencing the null
`nextThread` pointer on line 283, which happens whenever the parked queue
is non-empty and the caller's core queue holds at most one thread. -/
def wakeParkedThread (parkedQueue coreQueue : List KThread) (current : KThread) :
    Option (Option Nat) :=
  match parkedQueue with
  | [] => some none
  | parked :: _ =>
      let nextThread : Option KThread :=
        if coreQueue.length > 1 then coreQueue.get? 1 else none
      match nextThread with
      | none => none
      | some nt =>
          let nextThread2 : Option KThread :=
            if nt.priority = current.priority then some nt else none
          let noNextOrEarlier : Bool :=
            match nextThread2 with
            | none => true
            | some nt2 => decide (parked.timesliceStart < nt2.timesliceStart)
          if parked.priority < current.priority ∨
              (parked.priority = current.priority ∧ noNextOrEarlier = true) then
            some (some parked.id)
          else some none

/-! ## Legacy `KProcess` guest synchronization primitives -/

/-- A `KProcess::WaitStatus` record: priority snapshot, thread identity and
the signalled flag. -/
structure WaitStatus where
  priority : Nat
  pid : Nat
  flag : Bool
deriving DecidableEq, Repr

/-- Modelled from the spec: the value of `constant::MtxOwnerMask`, whose
definition is not among the provided sources (only its uses in
`KProcess::MutexLock`/`MutexUnlock` are).  Per the spec, the guest mutex
word's "low bits encode the owning thread's handle, a high bit flags has
waiters"; the owner mask is every `u32` bit except that waiter bit
(bit 30), i.e. `0xBFFFFFFF`, and `~MtxOwnerMask` is the waiter bit. -/
def MtxOwnerMask : Nat := 0xBFFFFFFF

/-- The wait-list insertion loop shared by `KProcess::MutexLock` and
`KProcess::ConditionalVariableWait`: skip entries while
`(*it)->priority >= caller->priority`, insert before the first entry with a
numerically smaller priority.  The list is therefore ordered by
non-increasing numeric priority, equal priorities in arrival order. -/
def waitInsert : List WaitStatus → WaitStatus → List WaitStatus
  | [], w => [w]
  | x :: xs, w =>
      if x.priority ≥ w.priority then x :: waitInsert xs w else w :: x :: xs

/-- The wait-list ordering the insertion loop actually maintains:
numeric priorities are non-increasing from front to back. -/
def descendingByPriority : List WaitStatus → Bool
  | [] => true
  | [_] => true
  | a :: b :: l => decide (b.priority ≤ a.priority) && descendingByPriority (b :: l)

/-- Outcome of `KProcess::MutexUnlock`: the returned boolean, the mutex
word after the call and the wait list after the call. -/
structure MutexUnlockResult where
  ok : Bool
  word : Nat
  waiters : List WaitStatus
deriving DecidableEq, Repr

/-- `KProcess::MutexUnlock` (legacy KProcess.cpp): fail unless the word's
owner field matches the calling thread's handle; clear the word when no
thread waits on the address; otherwise set the signalled flag of the wait
list's front record, leaving the word untouched. -/
def mutexUnlock (word handle : Nat) (waiters : List WaitStatus) : MutexUnlockResult :=
  if word &&& MtxOwnerMask ≠ handle then ⟨false, word, waiters⟩
  else
    match waiters with
    | [] => ⟨true, 0, []⟩
    | w :: ws => ⟨true, word, { w with flag := true } :: ws⟩

/-- `KProcess::ConditionalVariableSignal`: set the signalled flag of the
first `min(waiters.length, amount)` wait records, leaving the rest as they
are. -/
def conditionalVariableSignal (waiters : List WaitStatus) (amount : Nat) :
    List WaitStatus :=
  let n := min waiters.length amount
  (waiters.take n).map (fun w => { w with flag := true }) ++ waiters.drop n

/-- The blocking loop of `KProcess::ConditionalVariableWait`:
`while (!status->flag) { if (elapsed >= timeout) timedOut = true; }` followed
by `return !timedOut`.  Time advances one unit per iteration; `flagAt e`
tells whether the record has been signalled by elapsed time `e`; `fuel`
bounds the observed iterations, `none` meaning the loop is still spinning
after `fuel` iterations. -/
def condVarWaitLoop (flagAt : Nat → Bool) (timeout : Nat) :
    Nat → Nat → Bool → Option Bool
  | 0, _, _ => none
  | fuel + 1, elapsed, timedOut =>
      if flagAt elapsed then some !timedOut
      else condVarWaitLoop flagAt timeout fuel (elapsed + 1)
             (timedOut || decide (elapsed ≥ timeout))

/-! ## Helper lemmas about `upperBound`, `insertAt`, `eraseAt` and sortedness -/

/-- A thread with only identity and priority varying, used by the concrete
scenarios below. -/
def mkThread (i p : Nat) : KThread := ⟨i, p, 0, 0, 0, 0, false, false, false⟩

/-- The spec's literal scenario: threads A(id 1, priority 10),
B(id 2, priority 5), C(id 3, priority 5) inserted in that order into an
empty core queue. -/
def scenarioQueue : List KThread :=
  insertThread
    (insertThread (insertThread [] (mkThread 1 10) false) (mkThread 2 5) false)
    (mkThread 3 5) false

/-- The spec's mutex hand-off scenario: waiters with priorities 5, 10, 15
(pids 1, 2, 3) enqueued in that arrival order by `MutexLock`'s insertion
loop. -/
def mutexWaiters51015 : List WaitStatus :=
  waitInsert (waitInsert (waitInsert [] ⟨5, 1, false⟩) ⟨10, 2, false⟩) ⟨15, 3, false⟩

/-- The spec's condition-variable scenario: waiters with priorities 3, 7, 7
(pids 1, 2, 3) enqueued in that arrival order by `ConditionalVariableWait`'s
insertion loop. -/
def condWaiters377 : List WaitStatus :=
  waitInsert (waitInsert (waitInsert [] ⟨3, 1, false⟩) ⟨7, 2, false⟩) ⟨7, 3, false⟩

theorem upperBound_le_length (p : Nat) : ∀ l : List KThread, upperBound p l ≤ l.length
  | [] => Nat.le_refl 0
  | t :: ts => by
    by_cases h : p < t.priority
    · simp [upperBound, IsHigherPriority, h]
    · simpa [upperBound, IsHigherPriority, h] using upperBound_le_length p ts

theorem upperBound_get (p : Nat) :
    ∀ (l : List KThread) (x : KThread), l.get? (upperBound p l) = some x → p < x.priority
  | [], x => by simp [upperBound]
  | t :: ts, x => by
    by_cases h : p < t.priority
    · simp only [upperBound, IsHigherPriority, h, decide_eq_true, if_true]
      intro hx
      simp only [List.get?] at hx
      cases hx
      exact h
    · rw [upperBound, IsHigherPriority, if_neg (by simpa using h)]
      intro hx
      simp only [List.get?] at hx
      exact upperBound_get p ts x hx

theorem upperBound_before (p : Nat) :
    ∀ (l : List KThread) (j : Nat) (x : KThread),
      l.get? j = some x → j < upperBound p l → x.priority ≤ p
  | [], j, x => by simp
  | t :: ts, j, x => by
    by_cases h : p < t.priority
    · simp [upperBound, IsHigherPriority, h]
    · rw [upperBound, IsHigherPriority, if_neg (by simpa using h)]
      cases j with
      | zero =>
        intro hx _
        simp only [List.get?] at hx
        cases hx
        exact Nat.le_of_not_lt h
      | succ k =>
        intro hx hk
        simp only [List.get?] at hx
        exact upperBound_before p ts k x hx (Nat.lt_of_succ_lt_succ hk)

theorem sorted_tail {a : KThread} {l : List KThread}
    (h : sortedByPriority (a :: l) = true) : sortedByPriority l = true := by
  cases l with
  | nil => rfl
  | cons b l2 =>
    simp only [sortedByPriority, Bool.and_eq_true] at h
    exact h.2

theorem sorted_head_le :
    ∀ {a : KThread} {l : List KThread}, sortedByPriority (a :: l) = true →
      ∀ x ∈ l, a.priority ≤ x.priority := by
  intro a l
  induction l generalizing a with
  | nil => intro _ x hx; cases hx
  | cons b l2 ih =>
    intro h x hx
    simp only [sortedByPriority, Bool.and_eq_true, decide_eq_true_eq] at h
    rcases List.mem_cons.mp hx with hx | hx
    · exact hx ▸ h.1
    · exact Nat.le_trans h.1 (ih h.2 x hx)

theorem sorted_cons {a : KThread} {l : List KThread}
    (hl : sortedByPriority l = true)
    (hle : ∀ x ∈ l, a.priority ≤ x.priority) :
    sortedByPriority (a :: l) = true := by
  cases l with
  | nil => rfl
  | cons b l2 =>
    simp only [sortedByPriority, Bool.and_eq_true, decide_eq_true_eq]
    exact ⟨hle b (List.mem_cons_self b l2), hl⟩

theorem sorted_drop1 {l : List KThread} (h : sortedByPriority l = true) :
    sortedByPriority (l.drop 1) = true := by
  cases l with
  | nil => rfl
  | cons a l2 => simpa using sorted_tail h

theorem mem_insertAt {t x : KThread} :
    ∀ (n : Nat) (l : List KThread), x ∈ insertAt n t l → x = t ∨ x ∈ l := by
  intro n l
  induction l generalizing n with
  | nil =>
    intro hx
    simp only [insertAt] at hx
    rcases List.mem_cons.mp hx with hx | hx
    · exact Or.inl hx
    · cases hx
  | cons a xs ih =>
    cases n with
    | zero =>
      intro hx
      simp only [insertAt] at hx
      rcases List.mem_cons.mp hx with hx | hx
      · exact Or.inl hx
      · exact Or.inr hx
    | succ m =>
      intro hx
      simp only [insertAt] at hx
      rcases List.mem_cons.mp hx with hx | hx
      · exact Or.inr (by simp [hx])
      · rcases ih m hx with hy | hy
        · exact Or.inl hy
        · exact Or.inr (List.mem_cons_of_mem a hy)

theorem sorted_insertAt_upperBound (t : KThread) :
    ∀ l : List KThread, sortedByPriority l = true →
      sortedByPriority (insertAt (upperBound t.priority l) t l) = true := by
  intro l
  induction l with
  | nil => intro _; rfl
  | cons a xs ih =>
    intro h
    by_cases hp : t.priority < a.priority
    · simp only [upperBound, IsHigherPriority, hp, decide_eq_true, if_true, insertAt]
      exact sorted_cons h (by
        intro x hx
        rcases List.mem_cons.mp hx with hx | hx
        · exact hx ▸ Nat.le_of_lt hp
        · exact Nat.le_trans (Nat.le_of_lt hp) (sorted_head_le h x hx))
    · rw [upperBound, IsHigherPriority, if_neg (by simpa using hp)]
      simp only [insertAt]
      refine sorted_cons (ih (sorted_tail h)) ?_
      intro x hx
      rcases mem_insertAt _ _ hx with hx | hx
      · exact hx ▸ Nat.le_of_not_lt hp
      · exact sorted_head_le h x hx

theorem mem_eraseAt {x : KThread} :
    ∀ (i : Nat) (l : List KThread), x ∈ eraseAt i l → x ∈ l := by
  intro i l
  induction l generalizing i with
  | nil => intro hx; simp [eraseAt] at hx
  | cons a xs ih =>
    cases i with
    | zero => intro hx; exact List.mem_cons_of_mem a hx
    | succ m =>
      intro hx
      simp only [eraseAt] at hx
      rcases List.mem_cons.mp hx with hx | hx
      · simp [hx]
      · exact List.mem_cons_of_mem a (ih m hx)

theorem sorted_eraseAt :
    ∀ (i : Nat) (l : List KThread), sortedByPriority l = true →
      sortedByPriority (eraseAt i l) = true := by
  intro i l
  induction l generalizing i with
  | nil => intro h; simpa [eraseAt] using h
  | cons a xs ih =>
    cases i with
    | zero => intro h; simpa [eraseAt] using sorted_tail h
    | succ m =>
      intro h
      simp only [eraseAt]
      refine sorted_cons (ih m (sorted_tail h)) ?_
      intro x hx
      exact sorted_head_le h x (mem_eraseAt m xs hx)

theorem findIdx_get {tid : Nat} :
    ∀ (l : List KThread) (i : Nat), findIdxById tid l = some i →
      ∃ x, l.get? i = some x ∧ x.id = tid := by
  intro l
  induction l with
  | nil => intro i h; simp [findIdxById] at h
  | cons a xs ih =>
    intro i h
    by_cases ha : a.id = tid
    · simp only [findIdxById, ha, if_pos] at h
      cases h
      exact ⟨a, rfl, ha⟩
    · simp only [findIdxById, ha, if_neg, not_false_eq_true, Option.map_eq_some'] at h
      rcases h with ⟨j, hj, rfl⟩
      rcases ih j hj with ⟨x, hx, hxid⟩
      exact ⟨x, by simpa [List.get?] using hx, hxid⟩

theorem eraseAt_findIdx {tid : Nat} :
    ∀ (l : List KThread) (i : Nat), findIdxById tid l = some i →
      eraseAt i l = eraseById tid l := by
  intro l
  induction l with
  | nil => intro i h; simp [findIdxById] at h
  | cons a xs ih =>
    intro i h
    by_cases ha : a.id = tid
    · simp only [findIdxById, ha, if_pos] at h
      cases h
      simp [eraseAt, eraseById, ha]
    · simp only [findIdxById, ha, if_neg, not_false_eq_true, Option.map_eq_some'] at h
      rcases h with ⟨j, hj, rfl⟩
      simp [eraseAt, eraseById, ha, ih j hj]

theorem eraseById_findIdx_none {tid : Nat} :
    ∀ l : List KThread, findIdxById tid l = none → eraseById tid l = l := by
  intro l
  induction l with
  | nil => intro _; rfl
  | cons a xs ih =>
    intro h
    by_cases ha : a.id = tid
    · simp [findIdxById, ha] at h
    · simp only [findIdxById, ha, if_neg, not_false_eq_true, Option.map_eq_none'] at h
      simp [eraseById, ha, ih h]

theorem spliceFront_eq (front : KThread) (rest : List KThread) :
    spliceFrontToBand (front :: rest) =
      insertAt (upperBound front.priority rest) front rest := by
  simp [spliceFrontToBand, upperBound, IsHigherPriority]

theorem sorted_spliceFront {front : KThread} {rest : List KThread}
    (h : sortedByPriority rest = true) :
    sortedByPriority (spliceFrontToBand (front :: rest)) = true := by
  rw [spliceFront_eq]
  exact sorted_insertAt_upperBound front rest h

theorem sorted_map_priority_preserving (f : KThread → KThread)
    (hf : ∀ x, (f x).priority = x.priority) :
    ∀ l : List KThread, sortedByPriority l = true →
      sortedByPriority (l.map f) = true := by
  intro l
  induction l with
  | nil => intro _; rfl
  | cons a xs ih =>
    intro h
    cases xs with
    | nil => rfl
    | cons b l2 =>
      simp only [sortedByPriority, Bool.and_eq_true, decide_eq_true_eq] at h
      have := ih h.2
      simp only [List.map] at this ⊢
      simp only [sortedByPriority, Bool.and_eq_true, decide_eq_true_eq, hf]
      exact ⟨h.1, by simpa [sortedByPriority] using this⟩

theorem yieldFlags_priority (front : KThread) (c : Bool) :
    (yieldFlags front c).priority = front.priority := by
  unfold yieldFlags
  dsimp only
  split <;> rfl

theorem insertThread_sorted (q : List KThread) (t : KThread) (c : Bool)
    (h : sortedByPriority q = true) :
    sortedByPriority (insertThread q t c) = true := by
  cases q with
  | nil => rfl
  | cons front rest =>
    unfold insertThread
    cases hub : upperBound t.priority (front :: rest) with
    | zero =>
      have hlt : t.priority < front.priority := by
        by_contra hge
        rw [upperBound, IsHigherPriority, if_neg (by simpa using hge)] at hub
        exact Nat.succ_ne_zero _ hub
      show sortedByPriority (t :: spliceFrontToBand (yieldFlags front c :: rest)) = true
      refine sorted_cons (sorted_spliceFront (sorted_tail h)) ?_
      intro x hx
      rw [spliceFront_eq] at hx
      rcases mem_insertAt _ _ hx with hx | hx
      · rw [hx, yieldFlags_priority]
        exact Nat.le_of_lt hlt
      · exact Nat.le_trans (Nat.le_of_lt hlt) (sorted_head_le h x hx)
    | succ n =>
      show sortedByPriority (insertAt (n + 1) t (front :: rest)) = true
      rw [← hub]
      exact sorted_insertAt_upperBound t (front :: rest) h

theorem rotate_sorted {c : Bool} {q q' : List KThread} {t t' : KThread} {now : Nat}
    (h : sortedByPriority q = true) (hr : rotate c q t now = some (q', t')) :
    sortedByPriority q' = true := by
  unfold rotate at hr
  cases q with
  | nil => cases hr
  | cons front rest =>
    dsimp only at hr
    by_cases hid : front.id = t.id
    · rw [if_pos hid] at hr
      cases hr
      exact sorted_map_priority_preserving _ (fun x => by split <;> rfl) _
        (sorted_spliceFront (sorted_tail h))
    · rw [if_neg hid] at hr
      by_cases hfy : t.forceYield = true
      · rw [if_pos hfy] at hr
        cases hr
        exact sorted_map_priority_preserving _ (fun x => by split <;> rfl) _ h
      · rw [if_neg hfy] at hr
        cases hr

theorem removeThread_sorted (q : List KThread) (t : KThread) (now : Nat)
    (h : sortedByPriority q = true) :
    sortedByPriority (removeThread q t now).1 = true := by
  unfold removeThread
  cases hf : findIdxById t.id q with
  | none => simpa using h
  | some i => simpa using sorted_eraseAt i q h

theorem reinsert_tail_sorted (t1 : KThread) (q1 : List KThread)
    (hs : sortedByPriority q1 = true) :
    sortedByPriority ((reinsertAfterErase t1 q1).1.drop 1) = true := by
  cases q1 with
  | nil => rfl
  | cons front rest =>
    unfold reinsertAfterErase
    cases hub : upperBound t1.priority (front :: rest) with
    | zero =>
      have hlt : t1.priority < front.priority := by
        by_contra hge
        rw [upperBound, IsHigherPriority, if_neg (by simpa using hge)] at hub
        exact Nat.succ_ne_zero _ hub
      show sortedByPriority (t1 :: rest) = true
      refine sorted_cons (sorted_tail hs) ?_
      intro x hx
      exact Nat.le_trans (Nat.le_of_lt hlt) (sorted_head_le hs x hx)
    | succ n =>
      show sortedByPriority ((insertAt (n + 1) t1 (front :: rest)).drop 1) = true
      rw [← hub]
      exact sorted_drop1 (sorted_insertAt_upperBound t1 (front :: rest) hs)

theorem updatePriority_tail_sorted (pp : Nat) (q : List KThread) (tid : Nat)
    (h : sortedByPriority (eraseById tid q) = true) :
    sortedByPriority ((updatePriority pp q tid).queue.drop 1) = true := by
  unfold updatePriority
  cases hf : findIdxById tid q with
  | none =>
    rw [eraseById_findIdx_none q hf] at h
    exact sorted_drop1 h
  | some i =>
    dsimp only
    by_cases hi : i = 0
    · subst hi
      rw [if_pos rfl]
      have he := eraseAt_findIdx q 0 hf
      rw [← he] at h
      cases q with
      | nil => exact h
      | cons a xs => exact h
    · rw [if_neg hi]
      obtain ⟨t, ht, _⟩ := findIdx_get q i hf
      rw [ht]
      dsimp only
      by_cases htgt : i = upperBound t.priority q
      · exact absurd (upperBound_get t.priority q t (htgt ▸ ht)) (Nat.lt_irrefl _)
      · rw [if_neg htgt]
        have hs1 : sortedByPriority (eraseAt i q) = true := by
          rw [eraseAt_findIdx q i hf]
          exact h
        exact reinsert_tail_sorted _ _ hs1

theorem selectStep_mask {currentId mask prio now : Nat} {acc : Option (Core × Nat)}
    {candidate cc : Core} {ts : Nat}
    (hacc : ∀ c2 t2, acc = some (c2, t2) → mask.testBit c2.id = true)
    (h : selectStep currentId mask prio now acc candidate = some (cc, ts)) :
    mask.testBit cc.id = true := by
  unfold selectStep at h
  by_cases hm : mask.testBit candidate.id = true
  · rw [if_pos hm] at h
    cases acc with
    | none =>
      dsimp only at h
      cases h
      exact hm
    | some p =>
      obtain ⟨b, bts⟩ := p
      dsimp only at h
      split at h
      · cases h
        exact hm
      · cases h
        exact hacc _ _ rfl
  · rw [if_neg hm] at h
    exact hacc cc ts h

theorem selectCore_foldl_mask (currentId mask prio now : Nat) :
    ∀ (l : List Core) (acc : Option (Core × Nat)),
      (∀ c2 t2, acc = some (c2, t2) → mask.testBit c2.id = true) →
      ∀ (cc : Core) (ts : Nat),
        l.foldl (selectStep currentId mask prio now) acc = some (cc, ts) →
        mask.testBit cc.id = true := by
  intro l
  induction l with
  | nil => intro acc hacc cc ts h; exact hacc cc ts h
  | cons a as ih =>
    intro acc hacc cc ts h
    exact ih (selectStep currentId mask prio now acc a)
      (fun c2 t2 h2 => selectStep_mask hacc h2) cc ts h

theorem desc_tail {a : WaitStatus} {l : List WaitStatus}
    (h : descendingByPriority (a :: l) = true) : descendingByPriority l = true := by
  cases l with
  | nil => rfl
  | cons b l2 =>
    simp only [descendingByPriority, Bool.and_eq_true] at h
    exact h.2

theorem desc_head_ge :
    ∀ {a : WaitStatus} {l : List WaitStatus}, descendingByPriority (a :: l) = true →
      ∀ x ∈ l, x.priority ≤ a.priority := by
  intro a l
  induction l generalizing a with
  | nil => intro _ x hx; cases hx
  | cons b l2 ih =>
    intro h x hx
    simp only [descendingByPriority, Bool.and_eq_true, decide_eq_true_eq] at h
    rcases List.mem_cons.mp hx with hx | hx
    · exact hx ▸ h.1
    · exact Nat.le_trans (ih h.2 x hx) h.1

theorem desc_cons {a : WaitStatus} {l : List WaitStatus}
    (hl : descendingByPriority l = true)
    (hge : ∀ x ∈ l, x.priority ≤ a.priority) :
    descendingByPriority (a :: l) = true := by
  cases l with
  | nil => rfl
  | cons b l2 =>
    simp only [descendingByPriority, Bool.and_eq_true, decide_eq_true_eq]
    exact ⟨hge b (List.mem_cons_self b l2), hl⟩

theorem mem_waitInsert {w y : WaitStatus} :
    ∀ l : List WaitStatus, y ∈ waitInsert l w → y = w ∨ y ∈ l := by
  intro l
  induction l with
  | nil =>
    intro hy
    rcases List.mem_cons.mp hy with hy | hy
    · exact Or.inl hy
    · cases hy
  | cons x xs ih =>
    by_cases hge : x.priority ≥ w.priority
    · rw [waitInsert, if_pos hge]
      intro hy
      rcases List.mem_cons.mp hy with hy | hy
      · exact Or.inr (by simp [hy])
      · rcases ih hy with hz | hz
        · exact Or.inl hz
        · exact Or.inr (List.mem_cons_of_mem x hz)
    · rw [waitInsert, if_neg hge]
      intro hy
      rcases List.mem_cons.mp hy with hy | hy
      · exact Or.inl hy
      · exact Or.inr hy

theorem waitInsert_descending (w : WaitStatus) :
    ∀ l : List WaitStatus, descendingByPriority l = true →
      descendingByPriority (waitInsert l w) = true := by
  intro l
  induction l with
  | nil => intro _; rfl
  | cons x xs ih =>
    intro h
    by_cases hge : x.priority ≥ w.priority
    · rw [waitInsert, if_pos hge]
      refine desc_cons (ih (desc_tail h)) ?_
      intro y hy
      rcases mem_waitInsert _ hy with hy | hy
      · exact hy ▸ hge
      · exact desc_head_ge h y hy
    · rw [waitInsert, if_neg hge]
      refine desc_cons h ?_
      intro y hy
      rcases List.mem_cons.mp hy with hy | hy
      · exact hy ▸ Nat.le_of_lt (Nat.lt_of_not_le hge)
      · exact Nat.le_trans (desc_head_ge h y hy) (Nat.le_of_lt (Nat.lt_of_not_le hge))

theorem desc_take_drop :
    ∀ (l : List WaitStatus) (k : Nat), descendingByPriority l = true →
      ∀ x ∈ l.take k, ∀ y ∈ l.drop k, y.priority ≤ x.priority := by
  intro l
  induction l with
  | nil => intro k _ x hx; simp at hx
  | cons a as ih =>
    intro k hd x hx y hy
    cases k with
    | zero => simp at hx
    | succ m =>
      simp only [List.take, List.drop] at hx hy
      rcases List.mem_cons.mp hx with hx | hx
      · exact hx ▸ desc_head_ge hd y (List.mem_of_mem_drop hy)
      · exact ih m (desc_tail hd) x hx y hy

/-! ## Claim theorems -/

/-- C1 (counterexample): the sortedness invariant is not preserved by every
`UpdatePriority` call.  Starting from the sorted queue
[X(id 1, priority 5), Y(id 2, priority 10)], changing Y's priority to 3 and
calling `UpdatePriority` leaves the queue as [X(5), Y(3)] (Y is inserted
behind the front, which is merely signalled to yield), which is not sorted
by non-decreasing priority. -/
theorem updatePriority_breaks_sorted_at_head :
    sortedByPriority [mkThread 1 5, mkThread 2 10] = true
    ∧ (updatePriority 1 [mkThread 1 5, mkThread 2 3] 2).queue
        = [{ mkThread 1 5 with pendingYield := true }, mkThread 2 3]
    ∧ sortedByPriority (updatePriority 1 [mkThread 1 5, mkThread 2 3] 2).queue
        = false := by
  decide

/-- C1 (amended): the ready queue's sorted-by-non-decreasing-priority
invariant is preserved by `InsertThread`, `Rotate` and `RemoveThread`, and
insertion points use an upper-bound search so equal-priority threads keep
arrival order (everything strictly before the insertion point has priority
less-or-equal to the probe, the element at the insertion point has strictly
greater priority); `UpdatePriority` only guarantees the queue behind the
front is sorted — when the updated thread outranks the running front it is
parked directly behind it (see the counterexample). -/
theorem readyQueue_sorted_ops (q q' : List KThread) (t t' : KThread)
    (c cf : Bool) (now pp tid p j : Nat) (x : KThread) :
    (sortedByPriority q = true → sortedByPriority (insertThread q t cf) = true)
    ∧ (sortedByPriority q = true → rotate c q t now = some (q', t') →
        sortedByPriority q' = true)
    ∧ (sortedByPriority q = true → sortedByPriority (removeThread q t now).1 = true)
    ∧ (sortedByPriority (eraseById tid q) = true →
        sortedByPriority ((updatePriority pp q tid).queue.drop 1) = true)
    ∧ (q.get? j = some x → j < upperBound p q → x.priority ≤ p)
    ∧ (q.get? (upperBound p q) = some x → p < x.priority) :=
  ⟨insertThread_sorted q t cf,
   fun h hr => rotate_sorted h hr,
   removeThread_sorted q t now,
   updatePriority_tail_sorted pp q tid,
   fun h1 h2 => upperBound_before p q j x h1 h2,
   upperBound_get p q x⟩

/-- Witness for `readyQueue_sorted_ops` at concrete inputs. -/
theorem readyQueue_sorted_ops_witness :
    sortedByPriority (insertThread [mkThread 1 5, mkThread 2 10] (mkThread 3 7) false)
      = true
    ∧ sortedByPriority [mkThread 1 5] = true
    ∧ sortedByPriority (removeThread [mkThread 1 5, mkThread 2 10] (mkThread 1 5) 0).1
      = true
    ∧ sortedByPriority ((updatePriority 1 [mkThread 1 5, mkThread 2 10] 9).queue.drop 1)
      = true
    ∧ (mkThread 1 5).priority ≤ 7
    ∧ 3 < (mkThread 1 5).priority := by
  refine ⟨?_, ?_, ?_, ?_, ?_, ?_⟩
  · exact (readyQueue_sorted_ops [mkThread 1 5, mkThread 2 10] [] (mkThread 3 7)
      (mkThread 3 7) true false 0 1 9 7 0 (mkThread 1 5)).1 (by decide)
  · exact (readyQueue_sorted_ops [mkThread 1 5] [mkThread 1 5] (mkThread 1 5)
      (mkThread 1 5) true false 0 1 9 7 0 (mkThread 1 5)).2.1 (by decide) (by decide)
  · exact (readyQueue_sorted_ops [mkThread 1 5, mkThread 2 10] [] (mkThread 1 5)
      (mkThread 1 5) true false 0 1 9 7 0 (mkThread 1 5)).2.2.1 (by decide)
  · exact (readyQueue_sorted_ops [mkThread 1 5, mkThread 2 10] [] (mkThread 1 5)
      (mkThread 1 5) true false 0 1 9 7 0 (mkThread 1 5)).2.2.2.1 (by decide)
  · exact (readyQueue_sorted_ops [mkThread 1 5, mkThread 2 10] [] (mkThread 1 5)
      (mkThread 1 5) true false 0 1 9 7 0 (mkThread 1 5)).2.2.2.2.1 (by decide) (by decide)
  · exact (readyQueue_sorted_ops [mkThread 1 5, mkThread 2 10] [] (mkThread 1 5)
      (mkThread 1 5) true false 0 1 9 3 0 (mkThread 1 5)).2.2.2.2.2 (by decide)

/-- C4 (code bug): `UpdatePriority` on a thread at the head of its queue is
a complete no-op — it neither sends the yield interrupt when the thread
behind now outranks it (first conjunct: head at priority 10, next at 5) nor
arms the preemption timer when the new priority equals the core's threshold
(second conjunct: threshold 10, head at 10, not preempted) — because
scheduler.cpp line 210 returns before the dedicated head-handling block. -/
theorem updatePriority_head_noop :
    updatePriority 10 [mkThread 1 10, mkThread 2 5] 1
      = ⟨[mkThread 1 10, mkThread 2 5], false, false, false, false⟩
    ∧ updatePriority 10 [mkThread 1 10, mkThread 2 12] 1
      = ⟨[mkThread 1 10, mkThread 2 12], false, false, false, false⟩ := by
  decide

/-- C5 (counterexample): after inserting A(10), B(5), C(5) and rotating
from B at the head, the queue order is not the claimed [C, A, B]
(ids [3, 1, 2]). -/
theorem rotate_scenario_not_claimed_order :
    ((rotate true scenarioQueue (mkThread 2 5) 0).map (fun r => r.1.map KThread.id))
      ≠ some [3, 1, 2] := by
  decide

/-- C5 (amended): inserting A(priority 10), B(priority 5), C(priority 5)
into an empty core queue yields [B, C, A] (ids [2, 3, 1]), and a `Rotate`
from B at the head yields [C, B, A] (ids [3, 2, 1]): B moves behind C, the
last thread of its own priority band, but stays ahead of A. -/
theorem insert_rotate_scenario :
    scenarioQueue.map KThread.id = [2, 3, 1]
    ∧ ((rotate true scenarioQueue (mkThread 2 5) 0).map (fun r => r.1.map KThread.id))
      = some [3, 2, 1] := by
  decide

/-- C9 (code bug): `WakeParkedThread` with a non-empty parked queue and a
caller core queue holding at most one thread dereferences the null
`nextThread` (scheduler.cpp line 283) — undefined behaviour, modelled as
`none` — both when the parked thread ties the caller's priority and when it
strictly outranks it. -/
theorem wakeParkedThread_null_deref :
    wakeParkedThread [mkThread 9 5] [mkThread 1 5] (mkThread 1 5) = none
    ∧ wakeParkedThread [mkThread 9 4] [mkThread 1 5] (mkThread 1 5) = none := by
  decide

/-- C10: whenever `Rotate` returns normally, the calling thread's
`pendingYield`, `forceYield` and `isPreempted` flags are all false,
regardless of the `cooperative` argument. -/
theorem rotate_clears_yield_flags (c : Bool) (q q' : List KThread) (t t' : KThread)
    (now : Nat) (h : rotate c q t now = some (q', t')) :
    t'.pendingYield = false ∧ t'.forceYield = false ∧ t'.isPreempted = false := by
  unfold rotate at h
  cases q with
  | nil => cases h
  | cons front rest =>
    dsimp only at h
    by_cases hid : front.id = t.id
    · rw [if_pos hid] at h
      cases h
      exact ⟨rfl, rfl, rfl⟩
    · rw [if_neg hid] at h
      by_cases hfy : t.forceYield = true
      · rw [if_pos hfy] at h
        cases h
        exact ⟨rfl, rfl, rfl⟩
      · rw [if_neg hfy] at h
        cases h

/-- Witness for `rotate_clears_yield_flags`: a thread with all three flags
set rotates alone in its queue and comes back with them cleared. -/
theorem rotate_clears_yield_flags_witness :
    (⟨4, 5, 0, 0, 0, 0, false, false, false⟩ : KThread).pendingYield = false
    ∧ (⟨4, 5, 0, 0, 0, 0, false, false, false⟩ : KThread).forceYield = false
    ∧ (⟨4, 5, 0, 0, 0, 0, false, false, false⟩ : KThread).isPreempted = false :=
  rotate_clears_yield_flags true [⟨4, 5, 0, 0, 0, 0, true, true, true⟩]
    [⟨4, 5, 0, 0, 0, 0, false, false, false⟩] ⟨4, 5, 0, 0, 0, 0, true, true, true⟩
    ⟨4, 5, 0, 0, 0, 0, false, false, false⟩ 0 (by decide)

/-- C8: under the id-as-index layout of the `cores` array, if a thread's
current core is in its affinity mask then the core id it holds after any
`LoadBalance` call that runs to completion is still in its affinity mask —
`LoadBalance` never migrates a thread outside its mask. -/
theorem loadBalance_respects_affinity (cores : List Core) (t : KThread)
    (isSelf aIns : Bool) (now : Nat) (r : LoadBalanceResult)
    (hids : ∀ i (h : i < cores.length), (cores.get ⟨i, h⟩).id = i)
    (hmask : t.affinityMask.testBit t.coreId = true)
    (hr : loadBalance cores t isSelf aIns now = some r) :
    t.affinityMask.testBit r.coreId = true := by
  unfold loadBalance at hr
  cases hc : cores.get? t.coreId with
  | none =>
    rw [hc] at hr
    cases hr
  | some currentCore =>
    rw [hc] at hr
    dsimp only at hr
    by_cases hne : currentCore.queue ≠ [] ∧ bitCount t.affinityMask ≠ 1
    · rw [if_pos hne] at hr
      cases hsel : selectCore cores currentCore.id t.affinityMask t.priority now with
      | none =>
        rw [hsel] at hr
        cases hr
      | some p =>
        obtain ⟨optimal, ts⟩ := p
        rw [hsel] at hr
        dsimp only at hr
        have hopt : t.affinityMask.testBit optimal.id = true :=
          selectCore_foldl_mask currentCore.id t.affinityMask t.priority now cores none
            (fun c2 t2 h2 => by cases h2) optimal ts hsel
        by_cases hdiff : optimal.id ≠ currentCore.id
        · rw [if_pos hdiff] at hr
          by_cases hth : (!aIns && !isSelf) = true
          · rw [if_pos hth] at hr
            cases hr
            exact hmask
          · rw [if_neg hth] at hr
            cases hr
            exact hopt
        · rw [if_neg hdiff] at hr
          cases hr
          exact hmask
    · rw [if_neg hne] at hr
      cases hr
      exact hmask

/-- Witness for `loadBalance_respects_affinity`: a thread with affinity
mask 0b11 on busy core 0 migrates to idle core 1, which is in its mask. -/
theorem loadBalance_respects_affinity_witness : Nat.testBit 3 1 = true :=
  loadBalance_respects_affinity
    [⟨0, [mkThread 1 5]⟩, ⟨1, []⟩] ⟨7, 5, 0, 3, 0, 0, false, false, false⟩
    true true 0 ⟨1, true, false⟩ (by decide) (by decide) (by decide)

/-- C2 (counterexample): with waiters of priorities {5, 10, 15} enqueued by
`MutexLock`'s insertion loop, the wait list is ordered 15, 10, 5 and
`MutexUnlock` by the owner signals the priority-15 record — not the
priority-5 (numerically lowest, i.e. scheduling-highest) one the claim
names. -/
theorem mutexUnlock_signals_highest_numeric_cex :
    mutexWaiters51015 = [⟨15, 3, false⟩, ⟨10, 2, false⟩, ⟨5, 1, false⟩]
    ∧ (mutexUnlock 7 7 mutexWaiters51015).waiters
        = [⟨15, 3, true⟩, ⟨10, 2, false⟩, ⟨5, 1, false⟩]
    ∧ ((mutexUnlock 7 7 mutexWaiters51015).waiters.filter (fun x => x.flag)).map
        (fun x => x.priority) ≠ [5] := by
  decide

/-- C2 (amended): the `MutexLock` insertion loop keeps the wait list in
descending numeric priority order, and `MutexUnlock` by the owner with a
non-empty wait list signals the record at the head of that list — a waiter
whose numeric priority is greatest among all waiters — without writing the
mutex word. -/
theorem mutexUnlock_signals_descending_head (l : List WaitStatus) (v w : WaitStatus)
    (ws : List WaitStatus) (word handle : Nat)
    (hl : descendingByPriority l = true)
    (hws : descendingByPriority (w :: ws) = true)
    (hown : word &&& MtxOwnerMask = handle) :
    descendingByPriority (waitInsert l v) = true
    ∧ mutexUnlock word handle (w :: ws) = ⟨true, word, { w with flag := true } :: ws⟩
    ∧ (∀ x ∈ w :: ws, x.priority ≤ w.priority) := by
  refine ⟨waitInsert_descending v l hl, ?_, ?_⟩
  · unfold mutexUnlock
    rw [if_neg (not_not_intro hown)]
  · intro x hx
    rcases List.mem_cons.mp hx with hx | hx
    · exact hx ▸ Nat.le_refl _
    · exact desc_head_ge hws x hx

/-- Witness for `mutexUnlock_signals_descending_head` at concrete inputs. -/
theorem mutexUnlock_signals_descending_head_witness :
    descendingByPriority (waitInsert [⟨10, 2, false⟩] ⟨5, 1, false⟩) = true
    ∧ mutexUnlock 7 7 [⟨15, 3, false⟩, ⟨5, 1, false⟩]
        = ⟨true, 7, [⟨15, 3, true⟩, ⟨5, 1, false⟩]⟩
    ∧ (∀ x ∈ [(⟨15, 3, false⟩ : WaitStatus), ⟨5, 1, false⟩], x.priority ≤ 15) :=
  mutexUnlock_signals_descending_head [⟨10, 2, false⟩] ⟨5, 1, false⟩ ⟨15, 3, false⟩
    [⟨5, 1, false⟩] 7 7 (by decide) (by decide) (by decide)

/-- C3 (code bug): the `ConditionalVariableWait` spin loop
(`while (!status->flag) { if (elapsed >= timeout) timedOut = true; }`)
exits only when the record's signalled flag is set: if the record is never
signalled the call never returns — for every timeout, every starting
elapsed time, every accumulated `timedOut` value and every number of
observed iterations — even long after the timeout has elapsed. -/
theorem condVarWaitLoop_never_returns (timeout fuel elapsed : Nat) (timedOut : Bool) :
    condVarWaitLoop (fun _ => false) timeout fuel elapsed timedOut = none := by
  induction fuel generalizing elapsed timedOut with
  | zero => rfl
  | succ n ih =>
    show condVarWaitLoop (fun _ => false) timeout n (elapsed + 1)
      (timedOut || decide (elapsed ≥ timeout)) = none
    exact ih (elapsed + 1) _

/-- C6 (counterexample): with waiters of priorities {3, 7, 7} enqueued by
`ConditionalVariableWait`'s insertion loop, the wait list is ordered
7, 7, 3 and `ConditionalVariableSignal(addr, 1)` flags the first priority-7
record — not the priority-3 (numerically lowest) one the claim names. -/
theorem condVarSignal_highest_numeric_cex :
    condWaiters377 = [⟨7, 2, false⟩, ⟨7, 3, false⟩, ⟨3, 1, false⟩]
    ∧ conditionalVariableSignal condWaiters377 1
        = [⟨7, 2, true⟩, ⟨7, 3, false⟩, ⟨3, 1, false⟩]
    ∧ ((conditionalVariableSignal condWaiters377 1).filter (fun x => x.flag)).map
        (fun x => x.priority) ≠ [3] := by
  decide

/-- C6 (amended): `ConditionalVariableSignal` flags exactly the first
`min(count, waitListSize)` records of the wait list, leaving the rest
queued; since the insertion loop keeps the list in descending numeric
priority order, every flagged record's numeric priority is
greater-or-equal to that of every record left waiting. -/
theorem condVarSignal_flags_prefix (l : List WaitStatus) (n : Nat)
    (hd : descendingByPriority l = true) :
    conditionalVariableSignal l n
      = (l.take (min l.length n)).map (fun w => { w with flag := true })
          ++ l.drop (min l.length n)
    ∧ ∀ x ∈ l.take (min l.length n), ∀ y ∈ l.drop (min l.length n),
        y.priority ≤ x.priority :=
  ⟨rfl, desc_take_drop l (min l.length n) hd⟩

/-- Witness for `condVarSignal_flags_prefix` at the {3, 7, 7} scenario. -/
theorem condVarSignal_flags_prefix_witness :
    conditionalVariableSignal [⟨7, 2, false⟩, ⟨7, 3, false⟩, ⟨3, 1, false⟩] 1
      = ([(⟨7, 2, false⟩ : WaitStatus)].map (fun w => { w with flag := true }))
          ++ [⟨7, 3, false⟩, ⟨3, 1, false⟩]
    ∧ ∀ x ∈ [(⟨7, 2, false⟩ : WaitStatus)],
        ∀ y ∈ [(⟨7, 3, false⟩ : WaitStatus), ⟨3, 1, false⟩],
          y.priority ≤ x.priority :=
  condVarSignal_flags_prefix [⟨7, 2, false⟩, ⟨7, 3, false⟩, ⟨3, 1, false⟩] 1 (by decide)

/-- C7: `MutexUnlock` returns true iff the mutex word's owner field equals
the calling thread's handle; when it returns false it changes neither the
word nor the wait list; and a successful unlock with an empty wait list
clears the word to 0 (unowned). -/
theorem mutexUnlock_owner_semantics (word handle : Nat) (waiters : List WaitStatus) :
    ((mutexUnlock word handle waiters).ok = true ↔ word &&& MtxOwnerMask = handle)
    ∧ ((mutexUnlock word handle waiters).ok = false →
        (mutexUnlock word handle waiters).word = word
        ∧ (mutexUnlock word handle waiters).waiters = waiters)
    ∧ (word &&& MtxOwnerMask = handle → waiters = [] →
        (mutexUnlock word handle waiters).word = 0) := by
  unfold mutexUnlock
  by_cases h : word &&& MtxOwnerMask = handle
  · rw [if_neg (not_not_intro h)]
    cases waiters with
    | nil => exact ⟨by simp [h], by simp, fun _ _ => rfl⟩
    | cons w ws => exact ⟨by simp [h], by simp, fun _ hw => by cases hw⟩
  · rw [if_pos h]
    exact ⟨by simp [h], fun _ => ⟨rfl, rfl⟩, fun he => absurd he h⟩

/-- Witness for `mutexUnlock_owner_semantics`: a matching owner with no
waiters clears the word; a mismatched owner leaves word and waiters
untouched. -/
theorem mutexUnlock_owner_semantics_witness :
    (mutexUnlock 5 5 []).word = 0
    ∧ (mutexUnlock 6 5 [⟨1, 1, false⟩]).word = 6
    ∧ (mutexUnlock 6 5 [⟨1, 1, false⟩]).waiters = [⟨1, 1, false⟩] := by
  refine ⟨?_, ?_, ?_⟩
  · exact (mutexUnlock_owner_semantics 5 5 []).2.2 (by decide) rfl
  · exact ((mutexUnlock_owner_semantics 6 5 [⟨1, 1, false⟩]).2.1 (by decide)).1
  · exact ((mutexUnlock_owner_semantics 6 5 [⟨1, 1, false⟩]).2.1 (by decide)).2

end SkylineKernel
